import Mathlib

/-!
Verification of the generic list fold operations of `pyutils`
(`src/nbs/list.ipynb`, exported module `pycollections.list`).

The module defines two functions:

  - `foldl_list(a_vals, start, f)`: an iterative left fold that keeps a
    mutable accumulator `out`, initialised to `start`, and runs
    `out = f(out, next_a)` for each `next_a` of `a_vals` in forward order;
  - `foldr_list(a_vals, start, f)`: a recursive right fold that returns
    `start` on the empty list and otherwise splits `a_vals` into
    `next_a, *remaining_a_vals` and returns
    `f(next_a, foldr_list(remaining_a_vals, start, f))`.

The notebook also contains an illustrative type-changing fold: a `Foo`
dataclass holding an integer `value` and a `even` flag computed as
`value % 2 == 0`, and a combiner `allocate` that appends `Foo(next_i)` to
the `"even"` or `"odd"` entry of a two-key dictionary.

We embed these functions below and prove the fold-semantics properties of
the specification against them.
-/

universe u v

/-- Loop body of `foldl_list`: the Python `for next_a in a_vals` loop that
repeatedly replaces the accumulator `out` by `f out next_a`. -/
def foldl_loop {A : Type u} {B : Type v} (f : B → A → B) : B → List A → B
  | out, [] => out
  | out, next_a :: rest => foldl_loop f (f out next_a) rest

/-- Embedding of `foldl_list` from `src/nbs/list.ipynb`: start the
accumulator at `start` and run the forward loop over `a_vals`. -/
def foldl_list {A : Type u} {B : Type v} (a_vals : List A) (start : B)
    (f : B → A → B) : B :=
  foldl_loop f start a_vals

/-- Embedding of `foldr_list` from `src/nbs/list.ipynb`: on the empty list
return `start`; otherwise destructure `a_vals` into `next_a` and
`remaining_a_vals` and return `f next_a (foldr_list remaining_a_vals start f)`. -/
def foldr_list {A : Type u} {B : Type v} (a_vals : List A) (start : B)
    (f : A → B → B) : B :=
  match a_vals with
  | [] => start
  | next_a :: remaining_a_vals => f next_a (foldr_list remaining_a_vals start f)

/-- Embedding of the `Foo` dataclass of the notebook: an integer `value`
together with the `even` flag that `__post_init__` computes. -/
structure Foo where
  value : Int
  even : Bool
deriving DecidableEq, Repr

/-- Construction `Foo(next_i)` of the notebook: `__post_init__` sets
`even` to `value % 2 == 0`. -/
def Foo.create (value : Int) : Foo :=
  { value := value, even := value % 2 == 0 }

/-- Embedding of the two-key dictionary `{"even": ..., "odd": ...}` that the
`allocate` example folds into: one list of `Foo` per parity key. -/
structure ParityDict where
  even : List Foo
  odd : List Foo
deriving DecidableEq, Repr

/-- Embedding of `allocate` from the notebook: build `Foo(next_i)` and append
it to the `"even"` entry when its flag is set, otherwise to the `"odd"`
entry. -/
def allocate (out : ParityDict) (next_i : Int) : ParityDict :=
  let f : Foo := Foo.create next_i
  if f.even then
    { out with even := out.even ++ [f] }
  else
    { out with odd := out.odd ++ [f] }

/-- Call depth of `foldr_list`: the Python implementation spends one stack
frame per list element, plus the frame of the base case (the final call on
the empty tail). Structure mirrors the recursion of `foldr_list`. -/
def foldr_call_depth {A : Type u} : List A → Nat
  | [] => 1
  | _ :: remaining_a_vals => 1 + foldr_call_depth remaining_a_vals

/-- Fuel-bounded variant of `foldr_list`, used to witness termination: each
recursive step consumes one unit of fuel and recurses on the strictly
shorter tail, returning `none` when the fuel runs out. -/
def foldr_fuel {A : Type u} {B : Type v} : Nat → List A → B → (A → B → B) →
    Option B
  | 0, _, _, _ => none
  | _ + 1, [], start, _ => some start
  | n + 1, next_a :: remaining_a_vals, start, f =>
      (foldr_fuel n remaining_a_vals start f).map (f next_a)

-- Helper lemmas shared by several claims.

theorem foldl_loop_eq_foldl {A : Type u} {B : Type v} (f : B → A → B) :
    ∀ (xs : List A) (out : B), foldl_loop f out xs = List.foldl f out xs := by
  intro xs
  induction xs with
  | nil => intro out; rfl
  | cons x t ih => intro out; simp [foldl_loop, List.foldl, ih]

theorem foldl_list_eq_foldl {A : Type u} {B : Type v} (xs : List A) (s : B)
    (f : B → A → B) : foldl_list xs s f = List.foldl f s xs :=
  foldl_loop_eq_foldl f xs s

theorem foldr_list_eq_foldr {A : Type u} {B : Type v} (xs : List A) (s : B)
    (f : A → B → B) : foldr_list xs s f = List.foldr f s xs := by
  induction xs with
  | nil => rfl
  | cons x t ih => simp [foldr_list, List.foldr, ih]

theorem foldr_call_depth_eq_length_succ {A : Type u} (xs : List A) :
    foldr_call_depth xs = xs.length + 1 := by
  induction xs with
  | nil => rfl
  | cons x t ih => simp [foldr_call_depth, ih]; omega

/-- C1: `foldr_list` satisfies the recursive definition of right fold:
`foldr_list [] start f = start` and
`foldr_list (head :: tail) start f = f head (foldr_list tail start f)`;
consequently it agrees with the canonical recursive right fold
`List.foldr` on every list, including empty and single-element lists. -/
theorem foldr_list_matches_recursive_def {A : Type u} {B : Type v}
    (start : B) (f : A → B → B) :
    foldr_list ([] : List A) start f = start ∧
    (∀ (head : A) (tail : List A),
      foldr_list (head :: tail) start f = f head (foldr_list tail start f)) ∧
    (∀ xs : List A, foldr_list xs start f = List.foldr f start xs) := by
  refine ⟨rfl, fun head tail => rfl, fun xs => foldr_list_eq_foldr xs start f⟩

/-- C2: `foldl_list` processes the elements in forward order, replacing the
accumulator with `f accumulator element` at each step: it satisfies the
forward recursion `foldl_list [] start f = start` and
`foldl_list (x :: t) start f = foldl_list t (f start x) f`, and hence equals
the canonical left fold `List.foldl`, i.e.
`f (... (f (f start x0) x1) ...) xn`. -/
theorem foldl_list_forward_order {A : Type u} {B : Type v} (f : B → A → B) :
    (∀ start : B, foldl_list ([] : List A) start f = start) ∧
    (∀ (start : B) (x : A) (t : List A),
      foldl_list (x :: t) start f = foldl_list t (f start x) f) ∧
    (∀ (start : B) (xs : List A), foldl_list xs start f = List.foldl f start xs) := by
  refine ⟨fun start => rfl, fun start x t => rfl,
    fun start xs => foldl_list_eq_foldl xs start f⟩

/-- C3: folding the empty list returns the start value unchanged, for both
`foldl_list` and `foldr_list`, whatever the start value and combine
function. -/
theorem fold_empty_returns_start {A : Type u} {B : Type v} (start : B)
    (fl : B → A → B) (fr : A → B → B) :
    foldl_list ([] : List A) start fl = start ∧
    foldr_list ([] : List A) start fr = start :=
  ⟨rfl, rfl⟩

/-- C4: `foldr_list` uses naive recursion with no explicit work-list and no
documented depth bound: on a list of length 100000 its call depth is
100001 (one stack frame per element plus the base-case frame), which far
exceeds CPython's default recursion limit of 1000, so the Python
implementation raises RecursionError instead of returning. -/
theorem foldr_call_depth_at_100000 :
    foldr_call_depth (List.range 100000) = 100001 := by
  rw [foldr_call_depth_eq_length_succ, List.length_range]

/-- C5: for a commutative and associative combine function, the left fold
with `f` and the right fold with the argument-swapped `f` agree from any
start value (in particular from `0`). -/
theorem foldl_eq_foldr_swapped_of_comm_assoc {B : Type v} (z : B)
    (f : B → B → B) (hcomm : ∀ a b, f a b = f b a)
    (hassoc : ∀ a b c, f (f a b) c = f a (f b c)) (xs : List B) :
    foldl_list xs z f = foldr_list xs z (fun a b => f b a) := by
  have hflip : (fun a b => f b a) = f := funext fun a => funext fun b => hcomm b a
  rw [foldl_list_eq_foldl, foldr_list_eq_foldr, hflip]
  have hc : Std.Commutative f := ⟨hcomm⟩
  have ha : Std.Associative f := ⟨hassoc⟩
  exact List.foldl_eq_foldr z xs

/-- C5 witness: integer addition with start value `0` on `[0, 1, 2, 3, 4]`. -/
theorem foldl_eq_foldr_swapped_witness :
    foldl_list [0, 1, 2, 3, 4] (0 : Int) (fun b a => b + a) =
      foldr_list [0, 1, 2, 3, 4] (0 : Int) (fun a b => (fun b a => b + a) b a) :=
  foldl_eq_foldr_swapped_of_comm_assoc 0 (fun b a => b + a)
    (fun a b => Int.add_comm a b) (fun a b c => Int.add_assoc a b c)
    [0, 1, 2, 3, 4]

/-- C6: with `map_left b a = b ++ [a]` and `map_right a b = b ++ [a]`, the
left fold of `[0, 1, 2, 3, 4]` from `[]` yields `[0, 1, 2, 3, 4]` while the
right fold yields `[4, 3, 2, 1, 0]`, and the two results differ, so the two
folds are not interchangeable in general. -/
theorem fold_order_sensitivity :
    foldl_list [0, 1, 2, 3, 4] ([] : List Int) (fun b a => b ++ [a]) =
        [0, 1, 2, 3, 4] ∧
    foldr_list [0, 1, 2, 3, 4] ([] : List Int) (fun a b => b ++ [a]) =
        [4, 3, 2, 1, 0] ∧
    foldl_list [0, 1, 2, 3, 4] ([] : List Int) (fun b a => b ++ [a]) ≠
      foldr_list [0, 1, 2, 3, 4] ([] : List Int) (fun a b => b ++ [a]) := by
  refine ⟨by decide, by decide, by decide⟩

/-- C7: folding `[0, 1, 2, 3, 4]` with the parity classifier `allocate` via
`foldl_list` from the empty two-key dictionary yields `Foo(0), Foo(2),
Foo(4)` under the even key and `Foo(1), Foo(3)` under the odd key, each list
in the relative input order. -/
theorem foldl_allocate_classifies_by_parity :
    foldl_list [0, 1, 2, 3, 4] (ParityDict.mk [] []) allocate =
      ParityDict.mk [⟨0, true⟩, ⟨2, true⟩, ⟨4, true⟩]
        [⟨1, false⟩, ⟨3, false⟩] := by
  decide

/-- C8: both folds are deterministic: two runs on equal lists, equal start
values and equal combine functions return equal results. -/
theorem folds_deterministic {A : Type u} {B : Type v} (xs ys : List A)
    (s t : B) (fl gl : B → A → B) (fr gr : A → B → B) (hxs : xs = ys)
    (hst : s = t) (hfl : fl = gl) (hfr : fr = gr) :
    foldl_list xs s fl = foldl_list ys t gl ∧
    foldr_list xs s fr = foldr_list ys t gr := by
  subst hxs; subst hst; subst hfl; subst hfr
  exact ⟨rfl, rfl⟩

/-- C8 witness: two runs of each fold on the list `[1, 2, 3]` with start `0`
and addition return the same result. -/
theorem folds_deterministic_witness :
    foldl_list [1, 2, 3] (0 : Nat) Nat.add = foldl_list [1, 2, 3] 0 Nat.add ∧
    foldr_list [1, 2, 3] (0 : Nat) Nat.add = foldr_list [1, 2, 3] 0 Nat.add :=
  folds_deterministic [1, 2, 3] [1, 2, 3] 0 0 Nat.add Nat.add Nat.add Nat.add
    rfl rfl rfl rfl

/-- C9: for every list, start value and combine function, the right fold
equals the left fold of the reversed list with the argument-swapped combine
function: the two folds are duals under reversal and argument swap. -/
theorem foldr_eq_foldl_reverse_flip {A : Type u} {B : Type v} (xs : List A)
    (start : B) (f : A → B → B) :
    foldr_list xs start f = foldl_list xs.reverse start (fun b a => f a b) := by
  rw [foldr_list_eq_foldr, foldl_list_eq_foldl, List.foldl_reverse]

/-- C10: `foldr_list` terminates on every finite list: every recursive call
is on the tail, which is strictly shorter than the input, and the whole
computation finishes within `length + 1` nested calls, as the fuel-bounded
variant shows. -/
theorem foldr_list_terminates {A : Type u} {B : Type v} (xs : List A)
    (start : B) (f : A → B → B) :
    (∀ (next_a : A) (remaining_a_vals : List A),
      xs = next_a :: remaining_a_vals →
        remaining_a_vals.length < xs.length) ∧
    foldr_fuel (xs.length + 1) xs start f = some (foldr_list xs start f) := by
  constructor
  · intro next_a remaining_a_vals h
    subst h
    simp
  · induction xs with
    | nil => rfl
    | cons x t ih => simp [foldr_fuel, foldr_list, ih]
